import Mathlib

/-!
Shallow embedding of the `auto_flow` package (files `automation.py` and
`workflows.py`) together with proofs about its scheduler, workflow engine,
safety guard and configuration loader.

Modelling conventions:
* Python floats (delays, timestamps) are modelled as rationals `ℚ`.
* Wall-clock timestamps are rationals; `datetime.now()` becomes an explicit
  `now : ℚ` argument threaded through the functions that read the clock.
* Fallible Python code (raising exceptions) is modelled with `Except AErr` /
  `Option AErr`.
* Ambient state read by the code (whether `pyautogui` / `keyboard` are
  importable, the currently active GUI window) is passed explicitly.
* The asynchronous hotkey press that sets the cancellation event is modelled
  by an optional time `cancel : Option ℚ` at which the event becomes set;
  `threading.Event.wait` wakes up as soon as the event is set.
-/

namespace AutoFlow

/-- Error values for the exceptions raised by the embedded code:
`AutomationError` (split into its three distinct raise sites), `ValueError`,
`TypeError`, and the unknown-task-type `ValueError` of `build_task`. -/
inductive AErr
  | backendMissing
  | noActiveWindow
  | focusMismatch
  | valueError
  | typeError
  | unknownTaskType
deriving DecidableEq

/-- Observable side effects issued to the `pyautogui` / `time` backends by
`AutomationAPI` (automation.py, class `AutomationAPI`).  `sleep s` records the
argument actually passed to `time.sleep`. -/
inductive Eff
  | sleep (seconds : ℚ)
  | moveTo (x y duration : ℚ)
  | click (button : String)
  | write (text : String) (interval : ℚ)
  | hotkey (keys : List String)
deriving DecidableEq

/-- ASCII lower-casing of a character list, modelling Python `str.lower()` on
the ASCII strings the code compares. -/
def lowerChars (cs : List Char) : List Char := cs.map Char.toLower

/-- Does the list `hay` start with `needle`?  Helper for substring search. -/
def charsStartWith : List Char → List Char → Bool
  | _, [] => true
  | [], _ :: _ => false
  | a :: as, b :: bs => a == b && charsStartWith as bs

/-- Contiguous-substring test `needle in hay`, modelling Python's `in` on
strings. -/
def charsContain : List Char → List Char → Bool
  | _, [] => true
  | [], _ :: _ => false
  | a :: as, b :: bs => charsStartWith (a :: as) (b :: bs) || charsContain as (b :: bs)

/-- Python `str.lower()` as a `String` function (ASCII case folding). -/
def str_toLower (s : String) : String := ⟨lowerChars s.data⟩

/-- automation.py, `@dataclass SafetySettings` with its default field
values (`0.2` seconds, failsafe on, default hotkey, no focus requirement). -/
structure SafetySettings where
  delay_between_actions : ℚ := 1/5
  failsafe : Bool := true
  hotkey : Option String := some "ctrl+alt+esc"
  require_window_title : Option String := none
deriving DecidableEq

/-- automation.py, `SafetySettings.ensure_focus` (and the module-level
`ensure_focus` wrapper).  `pyautogui_present` models `pyautogui is not None`;
`active_window` models `pyautogui.getActiveWindow()`: `none` = no active
window, `some title` = a window whose `.title` attribute is `title`
(`none` standing for Python `None`, which the code replaces by `""`).
A falsy `require_window_title` (absent or empty) returns immediately. -/
def ensure_focus (settings : SafetySettings) (pyautogui_present : Bool)
    (active_window : Option (Option String)) : Except AErr Unit :=
  match settings.require_window_title with
  | none => .ok ()
  | some req =>
    if req = "" then .ok ()
    else if pyautogui_present = false then .error .backendMissing
    else
      match active_window with
      | none => .error .noActiveWindow
      | some title =>
        if charsContain (lowerChars (title.getD "").data) (lowerChars req.data) then .ok ()
        else .error .focusMismatch

/-- automation.py, `AutomationAPI.sleep`: `time.sleep(max(seconds, 0.0))`.
The resulting effect records the clamped argument handed to `time.sleep`. -/
def api_sleep (seconds : ℚ) : Eff := .sleep (max seconds 0)

/-- The five task variants of workflows.py (`MoveTask`, `ClickTask`,
`TypeTask`, `HotkeyTask`, `WaitTask`) with their constructor fields. -/
inductive TaskAction
  | move (x y duration : ℚ)
  | click (button : String)
  | typeText (text : String) (interval : ℚ)
  | hotkey (keys : List String)
  | wait (seconds : ℚ)
deriving DecidableEq

/-- workflows.py, class `Task`: an action plus the class attribute
`delay_before` (default `0.0`, settable after construction). -/
structure Task where
  action : TaskAction
  delay_before : ℚ := 0
deriving DecidableEq

/-- workflows.py, `TaskContext`, extended with the ambient GUI state its
tasks read (backend availability and active window); the `api` handle is
represented by the effect trace and `shared` is unused by the embedded
code paths. -/
structure TaskContext where
  safety : SafetySettings
  pyautogui_present : Bool := true
  active_window : Option (Option String) := none
deriving DecidableEq

/-- The focus check `ensure_focus(ctx.safety)` performed by task `run`
methods, reading the ambient window state from the context. -/
def focus_check (ctx : TaskContext) : Except AErr Unit :=
  ensure_focus ctx.safety ctx.pyautogui_present ctx.active_window

/-- The `run` methods of the five task variants (workflows.py lines 50-98):
`Move`, `Click`, `Type` and `Hotkey` first run the focus check and then issue
their single backend call; `Wait` calls `ctx.api.sleep(seconds)` with no
focus check.  Returns the effect trace of the task or the raised error. -/
def run_task (ctx : TaskContext) : TaskAction → Except AErr (List Eff)
  | .move x y duration => (focus_check ctx).map (fun _ => [.moveTo x y duration])
  | .click button => (focus_check ctx).map (fun _ => [.click button])
  | .typeText text interval => (focus_check ctx).map (fun _ => [.write text interval])
  | .hotkey keys => (focus_check ctx).map (fun _ => [.hotkey keys])
  | .wait seconds => .ok [api_sleep seconds]

/-- workflows.py, `Workflow.run` per-task preamble:
`if getattr(task, "delay_before", 0): ctx.api.sleep(task.delay_before)` —
the sleep is issued only when `delay_before` is truthy (non-zero). -/
def pre_delay_trace (t : Task) : List Eff :=
  if t.delay_before ≠ 0 then [api_sleep t.delay_before] else []

/-- workflows.py, the loop body of `Workflow.run`: execute the tasks in
order, each after its pre-delay; a raised error stops the loop and is
propagated.  Returns the effects issued so far and the propagated error. -/
def run_tasks (ctx : TaskContext) : List Task → List Eff × Option AErr
  | [] => ([], none)
  | t :: ts =>
    let pre := pre_delay_trace t
    match run_task ctx t.action with
    | .error e => (pre, some e)
    | .ok effs =>
      let rest := run_tasks ctx ts
      (pre ++ effs ++ rest.1, rest.2)

/-- workflows.py, `@dataclass Workflow`. -/
structure Workflow where
  name : String
  tasks : List Task
deriving DecidableEq

/-- workflows.py, `Workflow.run(ctx)`. -/
def Workflow.run (ctx : TaskContext) (w : Workflow) : List Eff × Option AErr :=
  run_tasks ctx w.tasks

/-- The effects produced by a task that runs successfully (used to describe
traces in theorem statements). -/
def ok_effs (ctx : TaskContext) (t : Task) : List Eff :=
  match run_task ctx t.action with
  | .ok effs => effs
  | .error _ => []

/-- Pre-delay plus effects of one successfully executed task. -/
def task_trace (ctx : TaskContext) (t : Task) : List Eff :=
  pre_delay_trace t ++ ok_effs ctx t

/-- workflows.py, `HotkeyTask.__init__(*keys)`: raises `ValueError` when the
key sequence is empty, otherwise stores the keys. -/
def HotkeyTask_init (keys : List String) : Except AErr Task :=
  if keys.length < 1 then .error .valueError
  else .ok { action := .hotkey keys }

/-- A task configuration dictionary as consumed by `build_task`: the optional
`type` entry plus every keyword argument the five constructors could be
offered.  `none` models an absent key. -/
structure TaskSpec where
  type : Option String := none
  x : Option ℚ := none
  y : Option ℚ := none
  duration : Option ℚ := none
  button : Option String := none
  text : Option String := none
  interval : Option ℚ := none
  keys : Option (List String) := none
  seconds : Option ℚ := none
  delay_before : Option ℚ := none

/-- Keyword arguments other than `x`, `y`, `duration` are rejected by
`MoveTask.__init__` with a `TypeError`; `x` and `y` are required. -/
def mkMoveTask (spec : TaskSpec) : Except AErr Task :=
  if spec.button.isNone && spec.text.isNone && spec.interval.isNone
      && spec.keys.isNone && spec.seconds.isNone && spec.delay_before.isNone then
    match spec.x, spec.y with
    | some x, some y => .ok { action := .move x y (spec.duration.getD 0) }
    | _, _ => .error .typeError
  else .error .typeError

/-- workflows.py, `ClickTask.__init__(button="left")`: only `button` is
accepted. -/
def mkClickTask (spec : TaskSpec) : Except AErr Task :=
  if spec.x.isNone && spec.y.isNone && spec.duration.isNone && spec.text.isNone
      && spec.interval.isNone && spec.keys.isNone && spec.seconds.isNone
      && spec.delay_before.isNone then
    .ok { action := .click (spec.button.getD "left") }
  else .error .typeError

/-- workflows.py, `TypeTask.__init__(text, interval=0.0)`: `text` required, `interval`
optional, anything else a `TypeError`. -/
def mkTypeTask (spec : TaskSpec) : Except AErr Task :=
  if spec.x.isNone && spec.y.isNone && spec.duration.isNone && spec.button.isNone
      && spec.keys.isNone && spec.seconds.isNone && spec.delay_before.isNone then
    match spec.text with
    | some text => .ok { action := .typeText text (spec.interval.getD 0) }
    | none => .error .typeError
  else .error .typeError

/-- workflows.py, `HotkeyTask.__init__(*keys)` invoked with keyword arguments only: any
keyword raises `TypeError` (the starred parameter accepts no keywords), and
an empty call leaves `keys = ()` so the length check raises `ValueError`. -/
def mkHotkeyTask (spec : TaskSpec) : Except AErr Task :=
  if spec.x.isNone && spec.y.isNone && spec.duration.isNone && spec.button.isNone
      && spec.text.isNone && spec.interval.isNone && spec.keys.isNone
      && spec.seconds.isNone && spec.delay_before.isNone then
    .error .valueError
  else .error .typeError

/-- workflows.py, `WaitTask.__init__(seconds)`: `seconds` required, anything else a
`TypeError`. -/
def mkWaitTask (spec : TaskSpec) : Except AErr Task :=
  if spec.x.isNone && spec.y.isNone && spec.duration.isNone && spec.button.isNone
      && spec.text.isNone && spec.interval.isNone && spec.keys.isNone
      && spec.delay_before.isNone then
    match spec.seconds with
    | some seconds => .ok { action := .wait seconds }
    | none => .error .typeError
  else .error .typeError

/-- workflows.py, `TASK_REGISTRY`: the name-keyed factory registry. -/
def TASK_REGISTRY : List (String × (TaskSpec → Except AErr Task)) :=
  [("move", mkMoveTask), ("click", mkClickTask), ("type", mkTypeTask),
   ("hotkey", mkHotkeyTask), ("wait", mkWaitTask)]

/-- The body of `build_task` after `task_type = spec["type"].lower()` has
been computed: registry lookup, factory call, then the
`if delay: setattr(task, "delay_before", delay)` epilogue. -/
def build_task_typed (task_type : String) (spec : TaskSpec) : Except AErr Task :=
  match TASK_REGISTRY.lookup task_type with
  | none => .error .unknownTaskType
  | some factory =>
    match factory spec with
    | .error e => .error e
    | .ok t =>
      match spec.delay_before with
      | some d => if d ≠ 0 then .ok { t with delay_before := d } else .ok t
      | none => .ok t

/-- workflows.py, `build_task(spec)`: missing `type` raises, otherwise the
type name is lower-cased before the registry lookup. -/
def build_task (spec : TaskSpec) : Except AErr Task :=
  match spec.type with
  | none => .error .valueError
  | some ty => build_task_typed (str_toLower ty) spec

/-- A workflow `schedule` block: the two optional keys of the configuration
format.  `run_at` holds the already-parsed ISO-8601 timestamp. -/
structure ScheduleSpec where
  delay_seconds : Option ℚ := none
  run_at : Option ℚ := none

/-- workflows.py, `load_workflows_from_config` lines 240-244: the computation
of the entry's `run_at` from a schedule block.  The `delay_seconds` branch is
tested first, the `run_at` branch only in the `elif`. -/
def compute_run_at (now : ℚ) (schedule_spec : ScheduleSpec) : Option ℚ :=
  match schedule_spec.delay_seconds with
  | some d => some (now + d)
  | none =>
    match schedule_spec.run_at with
    | some t => some t
    | none => none

/-- automation.py, `HotkeyListener`: its hotkey, the `_registered_hotkey`
handle, whether the hotkey is currently registered with the OS-level
`keyboard` backend, and the state of the `threading.Event`. -/
structure HotkeyListener where
  hotkey : Option String
  registered_hotkey : Option String := none
  os_registered : Bool := false
  event_set : Bool := false
deriving DecidableEq

/-- automation.py, `HotkeyListener.__init__(hotkey)`. -/
def HotkeyListener.init (hotkey : Option String) : HotkeyListener :=
  { hotkey := hotkey }

/-- automation.py, `HotkeyListener.__enter__`: registers the hotkey only when one is
configured and the `keyboard` package is available; otherwise a warning is
logged and the listener degrades to a no-op. -/
def listener_enter (keyboard_present : Bool) (l : HotkeyListener) : HotkeyListener :=
  match l.hotkey with
  | none => l
  | some hk =>
    if keyboard_present = false then l
    else { l with registered_hotkey := some hk, os_registered := true }

/-- automation.py, `HotkeyListener.__exit__`: `keyboard.remove_hotkey` when a hotkey was
registered and the backend is present, then `self._event.set()`
unconditionally. -/
def listener_exit (keyboard_present : Bool) (l : HotkeyListener) : HotkeyListener :=
  let l1 := if l.registered_hotkey.isSome && keyboard_present then
      { l with os_registered := false }
    else l
  { l1 with event_set := true }

/-- The hotkey callback registered by `__enter__`: `self._event.set`. -/
def hotkey_callback (l : HotkeyListener) : HotkeyListener :=
  { l with event_set := true }

/-- automation.py, the `HotkeyListener.cancelled` property. -/
def HotkeyListener.cancelled (l : HotkeyListener) : Bool := l.event_set

/-- Is the cancellation event set at time `t`, when the asynchronous hotkey
press happens at time `cancel` (`none` = it never happens)? -/
def cancelledAt (cancel : Option ℚ) (t : ℚ) : Bool :=
  match cancel with
  | none => false
  | some T => decide (T ≤ t)

/-- A call `listener.wait(timeout)` started at time `now`: `threading.Event.wait`
returns at the end of the timeout, or as soon as the event is set at time
`cancel` within the timeout window.  Returns the time at which the call
returns. -/
def event_wait (cancel : Option ℚ) (now timeout : ℚ) : ℚ :=
  match cancel with
  | none => now + timeout
  | some T => if T ≤ now + timeout then max now T else now + timeout

/-- workflows.py, `Scheduler._maybe_wait_until(run_at)`, fuelled form.
Each iteration reads the clock, returns when `remaining <= 0`, otherwise
waits `min(remaining, 1.0)` and re-checks `listener.cancelled`.  Returns the
time at which the method returns together with the list of timeout slices
passed to `listener.wait`; `none` when the fuel ran out (shown impossible
for sufficient fuel below). -/
def maybe_wait_until_fuel (cancel : Option ℚ) (run_at : ℚ) :
    Nat → ℚ → Option (ℚ × List ℚ)
  | 0, _ => none
  | fuel+1, now =>
    if run_at - now ≤ 0 then some (now, [])
    else
      let slice := min (run_at - now) 1
      let now2 := event_wait cancel now slice
      if cancelledAt cancel now2 then some (now2, [slice])
      else (maybe_wait_until_fuel cancel run_at fuel now2).map (fun r => (r.1, slice :: r.2))

/-- workflows.py, `Scheduler._maybe_wait_until(run_at)` started at `now`: the fuelled
loop run with provably sufficient fuel. -/
def maybe_wait_until (cancel : Option ℚ) (run_at now : ℚ) : ℚ × List ℚ :=
  (maybe_wait_until_fuel cancel run_at (⌈run_at - now⌉₊ + 1) now).getD (now, [])

/-- workflows.py, `@dataclass ScheduledWorkflow`, generic over the workflow
representation used by the scheduler theorems. -/
structure ScheduledWorkflow (Wf : Type) where
  workflow : Wf
  run_at : ℚ
deriving DecidableEq

/-- workflows.py, `Scheduler.run` lines 151-152: the entry list is sorted by
`run_at` (Python's stable ascending `list.sort`) when it has more than one
element. -/
def sort_by_run_at {Wf : Type} (l : List (ScheduledWorkflow Wf)) :
    List (ScheduledWorkflow Wf) :=
  if 1 < l.length then l.insertionSort (fun a b => a.run_at ≤ b.run_at) else l

/-- The `for scheduled in self.workflows` loop of `Scheduler.run`: wait until
the entry is due, re-check the cancellation flag and break if it is set,
otherwise run the workflow.  `runWf w` yields the duration of the workflow
run and the error it raises, if any; an error aborts the loop and
propagates.  Returns the entries whose workflows began execution, the
finishing time, and the propagated error. -/
def sched_loop {Wf : Type} (runWf : Wf → ℚ × Option AErr) (cancel : Option ℚ) :
    ℚ → List (ScheduledWorkflow Wf) →
      List (ScheduledWorkflow Wf) × ℚ × Option AErr
  | t, [] => ([], t, none)
  | t, e :: rest =>
    let t1 := (maybe_wait_until cancel e.run_at t).1
    if cancelledAt cancel t1 then ([], t1, none)
    else
      let r := runWf e.workflow
      match r.2 with
      | some err => ([e], t1 + r.1, some err)
      | none =>
        let out := sched_loop runWf cancel (t1 + r.1) rest
        (e :: out.1, out.2.1, out.2.2)

/-- The observable outcome of one `Scheduler.run()` call. -/
structure RunOutcome (Wf : Type) where
  executed : List (ScheduledWorkflow Wf)
  final_time : ℚ
  listener : Option HotkeyListener
  backend_constructed : Bool
  error : Option AErr
deriving DecidableEq

/-- workflows.py, `Scheduler.run(self)`: empty list is a logged no-op before
any safety setup; otherwise sort, enter the `with initialize_safety(...)`
scope, construct `AutomationAPI()` (which raises when `pyautogui` is
missing), run the loop, and leave the scope — `__exit__` runs on the normal,
break and exception paths alike, and any raised error is re-raised after
logging. -/
def sched_run {Wf : Type} (keyboard_present pyautogui_present : Bool)
    (safety : SafetySettings) (runWf : Wf → ℚ × Option AErr)
    (cancel : Option ℚ) (t0 : ℚ) (entries : List (ScheduledWorkflow Wf)) :
    RunOutcome Wf :=
  if entries.isEmpty then
    { executed := [], final_time := t0, listener := none,
      backend_constructed := false, error := none }
  else
    let sorted := sort_by_run_at entries
    let l1 := listener_enter keyboard_present (HotkeyListener.init safety.hotkey)
    if pyautogui_present = false then
      { executed := [], final_time := t0,
        listener := some (listener_exit keyboard_present l1),
        backend_constructed := false, error := some .backendMissing }
    else
      let r := sched_loop runWf cancel t0 sorted
      { executed := r.1, final_time := r.2.1,
        listener := some (listener_exit keyboard_present l1),
        backend_constructed := true, error := r.2.2 }

/-- A context requiring focus on an "editor" window while a window titled
"Notepad" is active: focus checks fail in it. -/
def sample_ctx : TaskContext :=
  { safety := { require_window_title := some "editor" },
    active_window := some (some "Notepad") }

/-- A listener state with its hotkey registered and the event still clear
(used to exercise guard teardown on a concrete state). -/
def sample_listener : HotkeyListener :=
  { hotkey := some "ctrl+alt+esc", registered_hotkey := some "ctrl+alt+esc",
    os_registered := true }

/-- Comparison by `run_at` is total. -/
instance instIsTotalByRunAt {Wf : Type} :
    IsTotal (ScheduledWorkflow Wf) (fun a b => a.run_at ≤ b.run_at) :=
  ⟨fun a b => le_total a.run_at b.run_at⟩

/-- Comparison by `run_at` is transitive. -/
instance instIsTransByRunAt {Wf : Type} :
    IsTrans (ScheduledWorkflow Wf) (fun a b => a.run_at ≤ b.run_at) :=
  ⟨fun _ _ _ hab hbc => le_trans hab hbc⟩

/-! Helper lemmas about the interruptible wait loop. -/


/-- One-step unfolding of the fuelled wait loop at positive fuel. -/
theorem maybe_wait_until_fuel_succ (cancel : Option ℚ) (run_at : ℚ) (fuel : Nat) (now : ℚ) :
    maybe_wait_until_fuel cancel run_at (fuel + 1) now =
      if run_at - now ≤ 0 then some (now, [])
      else if cancelledAt cancel (event_wait cancel now (min (run_at - now) 1)) then
        some (event_wait cancel now (min (run_at - now) 1), [min (run_at - now) 1])
      else (maybe_wait_until_fuel cancel run_at fuel
          (event_wait cancel now (min (run_at - now) 1))).map
        (fun r => (r.1, min (run_at - now) 1 :: r.2)) := rfl

/-- Waiting never moves the clock backwards. -/
theorem event_wait_ge (cancel : Option ℚ) (now timeout : ℚ) (h : 0 ≤ timeout) :
    now ≤ event_wait cancel now timeout := by
  cases cancel with
  | none => simp only [event_wait]; linarith
  | some T =>
    simp only [event_wait]
    split
    · exact le_max_left _ _
    · linarith

/-- If the cancellation flag is still clear when the wait returns, the wait
slept for its full timeout. -/
theorem event_wait_of_not_cancelled (cancel : Option ℚ) (now timeout : ℚ)
    (h : ¬ cancelledAt cancel (event_wait cancel now timeout) = true) :
    event_wait cancel now timeout = now + timeout := by
  cases cancel with
  | none => simp [event_wait]
  | some T =>
    by_cases hT : T ≤ now + timeout
    · exfalso
      have h1 : event_wait (some T) now timeout = max now T := by
        simp [event_wait, hT]
      rw [h1] at h
      simp [cancelledAt] at h
    · simp [event_wait, hT]

/-- With fuel at least `run_at - now` the fuelled wait loop terminates. -/
theorem maybe_wait_until_fuel_isSome (cancel : Option ℚ) (run_at : ℚ) :
    ∀ (fuel : Nat) (now : ℚ), run_at - now ≤ (fuel : ℚ) →
      (maybe_wait_until_fuel cancel run_at (fuel + 1) now).isSome = true := by
  intro fuel
  induction fuel with
  | zero =>
    intro now h
    have h0 : run_at - now ≤ 0 := by exact_mod_cast h
    rw [maybe_wait_until_fuel_succ, if_pos h0]
    rfl
  | succ n ih =>
    intro now h
    rw [maybe_wait_until_fuel_succ]
    by_cases h0 : run_at - now ≤ 0
    · rw [if_pos h0]; rfl
    · rw [if_neg h0]
      by_cases hc :
          cancelledAt cancel (event_wait cancel now (min (run_at - now) 1)) = true
      · rw [if_pos hc]; rfl
      · rw [if_neg hc, event_wait_of_not_cancelled cancel now _ hc]
        have hrec : run_at - (now + min (run_at - now) 1) ≤ (n : ℚ) := by
          rcases le_total (run_at - now) 1 with h1 | h1
          · rw [min_eq_left h1]
            have : (0:ℚ) ≤ (n : ℚ) := Nat.cast_nonneg n
            linarith
          · rw [min_eq_right h1]
            push_cast at h
            linarith
        rw [Option.isSome_map']
        exact ih _ hrec

/-- The fuelled wait loop only moves time forward, returns only once the
entry is due or the cancellation flag is set, and every timeout slice it
hands to `listener.wait` is positive and at most one second. -/
theorem maybe_wait_until_fuel_spec (cancel : Option ℚ) (run_at : ℚ) :
    ∀ (fuel : Nat) (now t : ℚ) (sl : List ℚ),
      maybe_wait_until_fuel cancel run_at fuel now = some (t, sl) →
      now ≤ t ∧ (run_at ≤ t ∨ cancelledAt cancel t = true) ∧
        ∀ s ∈ sl, 0 < s ∧ s ≤ 1 := by
  intro fuel
  induction fuel with
  | zero => intro now t sl h; simp [maybe_wait_until_fuel] at h
  | succ n ih =>
    intro now t sl h
    rw [maybe_wait_until_fuel_succ] at h
    by_cases h0 : run_at - now ≤ 0
    · rw [if_pos h0] at h
      simp only [Option.some.injEq, Prod.mk.injEq] at h
      obtain ⟨rfl, rfl⟩ := h
      exact ⟨le_refl _, Or.inl (by linarith), by simp⟩
    · have hpos : 0 < run_at - now := lt_of_not_le h0
      have hslice_pos : 0 < min (run_at - now) 1 := lt_min hpos one_pos
      have hslice_le : min (run_at - now) 1 ≤ 1 := min_le_right _ _
      rw [if_neg h0] at h
      by_cases hc :
          cancelledAt cancel (event_wait cancel now (min (run_at - now) 1)) = true
      · rw [if_pos hc] at h
        simp only [Option.some.injEq, Prod.mk.injEq] at h
        obtain ⟨rfl, rfl⟩ := h
        refine ⟨event_wait_ge cancel now _ hslice_pos.le, Or.inr hc, ?_⟩
        intro s hs
        rw [List.mem_singleton] at hs
        subst hs
        exact ⟨hslice_pos, hslice_le⟩
      · rw [if_neg hc] at h
        obtain ⟨r, hrec, hr⟩ := Option.map_eq_some'.mp h
        obtain ⟨h1, h2, h3⟩ := ih _ r.1 r.2 hrec
        rw [Prod.ext_iff] at hr
        obtain ⟨ht, hsl⟩ := hr
        dsimp only at ht hsl
        subst ht
        subst hsl
        have hnow : now ≤ event_wait cancel now (min (run_at - now) 1) :=
          event_wait_ge cancel now _ hslice_pos.le
        refine ⟨le_trans hnow h1, h2, ?_⟩
        intro s hs
        rcases List.mem_cons.mp hs with rfl | hs
        · exact ⟨hslice_pos, hslice_le⟩
        · exact h3 s hs

/-- If the cancellation event fires at time `T` after the wait loop was
entered, and the loop returns with the flag observed set, then it returns at
most one second after `T`. -/
theorem maybe_wait_until_fuel_latency (T run_at : ℚ) :
    ∀ (fuel : Nat) (now t : ℚ) (sl : List ℚ),
      now < T →
      maybe_wait_until_fuel (some T) run_at fuel now = some (t, sl) →
      T ≤ t → t ≤ T + 1 := by
  intro fuel
  induction fuel with
  | zero => intro now t sl _ h; simp [maybe_wait_until_fuel] at h
  | succ n ih =>
    intro now t sl hnow h hobs
    rw [maybe_wait_until_fuel_succ] at h
    by_cases h0 : run_at - now ≤ 0
    · rw [if_pos h0] at h
      simp only [Option.some.injEq, Prod.mk.injEq] at h
      obtain ⟨rfl, rfl⟩ := h
      linarith
    · have hpos : 0 < run_at - now := lt_of_not_le h0
      have hslice_le : min (run_at - now) 1 ≤ 1 := min_le_right _ _
      rw [if_neg h0] at h
      by_cases hc :
          cancelledAt (some T) (event_wait (some T) now (min (run_at - now) 1)) = true
      · rw [if_pos hc] at h
        simp only [Option.some.injEq, Prod.mk.injEq] at h
        obtain ⟨rfl, rfl⟩ := h
        simp only [event_wait]
        split
        · rw [max_eq_right hnow.le]
          linarith
        · rename_i hT
          push_neg at hT
          have : min (run_at - now) 1 ≤ 1 := min_le_right _ _
          linarith
      · rw [if_neg hc] at h
        obtain ⟨r, hrec, hr⟩ := Option.map_eq_some'.mp h
        rw [Prod.ext_iff] at hr
        obtain ⟨ht, hsl⟩ := hr
        dsimp only at ht hsl
        subst ht
        have hlt : event_wait (some T) now (min (run_at - now) 1) < T := by
          simp [cancelledAt] at hc
          exact hc
        exact ih _ r.1 r.2 hlt hrec hobs

/-- The fuelled loop run with the fuel used by `maybe_wait_until` succeeds
and computes exactly `maybe_wait_until`. -/
theorem maybe_wait_until_eq_fuel (cancel : Option ℚ) (run_at now : ℚ) :
    maybe_wait_until_fuel cancel run_at (⌈run_at - now⌉₊ + 1) now
      = some (maybe_wait_until cancel run_at now) := by
  have h := maybe_wait_until_fuel_isSome cancel run_at ⌈run_at - now⌉₊ now
    (Nat.le_ceil _)
  unfold maybe_wait_until
  cases hm : maybe_wait_until_fuel cancel run_at (⌈run_at - now⌉₊ + 1) now with
  | none => rw [hm] at h; simp at h
  | some v => simp

/-- Specification of `_maybe_wait_until`: time moves forward, the method
returns only when the entry is due or cancellation is observed, and every
slice passed to `listener.wait` is positive and at most one second. -/
theorem maybe_wait_until_spec (cancel : Option ℚ) (run_at now : ℚ) :
    now ≤ (maybe_wait_until cancel run_at now).1 ∧
    (run_at ≤ (maybe_wait_until cancel run_at now).1 ∨
      cancelledAt cancel (maybe_wait_until cancel run_at now).1 = true) ∧
    ∀ s ∈ (maybe_wait_until cancel run_at now).2, 0 < s ∧ s ≤ 1 :=
  maybe_wait_until_fuel_spec cancel run_at _ now
    (maybe_wait_until cancel run_at now).1 (maybe_wait_until cancel run_at now).2
    (by rw [maybe_wait_until_eq_fuel])

/-- Latency bound for `_maybe_wait_until`: when the cancellation event fires
at `T` after the wait started and the wait returns with the flag set, it
returns no later than `T + 1`. -/
theorem maybe_wait_until_latency (T run_at now : ℚ) (hnow : now < T)
    (hobs : T ≤ (maybe_wait_until (some T) run_at now).1) :
    (maybe_wait_until (some T) run_at now).1 ≤ T + 1 :=
  maybe_wait_until_fuel_latency T run_at _ now
    (maybe_wait_until (some T) run_at now).1 (maybe_wait_until (some T) run_at now).2
    hnow (by rw [maybe_wait_until_eq_fuel]) hobs

/-! Helper lemmas about the scheduler loop and the sort. -/

/-- Unfolding of the scheduler loop on an empty entry list. -/
theorem sched_loop_nil {Wf : Type} (runWf : Wf → ℚ × Option AErr)
    (cancel : Option ℚ) (t : ℚ) :
    sched_loop runWf cancel t [] = ([], t, none) := rfl

/-- Unfolding of the scheduler loop on a non-empty entry list. -/
theorem sched_loop_cons {Wf : Type} (runWf : Wf → ℚ × Option AErr)
    (cancel : Option ℚ) (t : ℚ) (e : ScheduledWorkflow Wf)
    (rest : List (ScheduledWorkflow Wf)) :
    sched_loop runWf cancel t (e :: rest) =
      if cancelledAt cancel (maybe_wait_until cancel e.run_at t).1 then
        ([], (maybe_wait_until cancel e.run_at t).1, none)
      else
        match (runWf e.workflow).2 with
        | some err =>
          ([e], (maybe_wait_until cancel e.run_at t).1 + (runWf e.workflow).1, some err)
        | none =>
          let out := sched_loop runWf cancel
            ((maybe_wait_until cancel e.run_at t).1 + (runWf e.workflow).1) rest
          (e :: out.1, out.2.1, out.2.2) := rfl

/-- The workflows the loop executes are an initial segment of its entry
list: once the loop breaks or an error propagates, every later entry is
skipped. -/
theorem sched_loop_take {Wf : Type} (runWf : Wf → ℚ × Option AErr)
    (cancel : Option ℚ) :
    ∀ (l : List (ScheduledWorkflow Wf)) (t : ℚ),
      ∃ k, (sched_loop runWf cancel t l).1 = l.take k := by
  intro l
  induction l with
  | nil => intro t; exact ⟨0, rfl⟩
  | cons e rest ih =>
    intro t
    rw [sched_loop_cons]
    by_cases hc : cancelledAt cancel (maybe_wait_until cancel e.run_at t).1 = true
    · rw [if_pos hc]; exact ⟨0, rfl⟩
    · rw [if_neg hc]
      cases hr : (runWf e.workflow).2 with
      | some err => exact ⟨1, rfl⟩
      | none =>
        obtain ⟨k, hk⟩ := ih ((maybe_wait_until cancel e.run_at t).1 + (runWf e.workflow).1)
        exact ⟨k + 1, by simp [hk]⟩

/-- Every entry whose workflow the loop starts was due strictly before the
cancellation time: its wait returned un-cancelled at a time `t1 < T` with
`run_at ≤ t1`. -/
theorem sched_loop_executed_lt {Wf : Type} (runWf : Wf → ℚ × Option AErr)
    (T : ℚ) :
    ∀ (l : List (ScheduledWorkflow Wf)) (t : ℚ),
      ∀ e ∈ (sched_loop runWf (some T) t l).1, e.run_at < T := by
  intro l
  induction l with
  | nil => intro t e he; simp [sched_loop_nil] at he
  | cons a rest ih =>
    intro t e he
    rw [sched_loop_cons] at he
    by_cases hc : cancelledAt (some T) (maybe_wait_until (some T) a.run_at t).1 = true
    · rw [if_pos hc] at he; simp at he
    · rw [if_neg hc] at he
      have hlt : (maybe_wait_until (some T) a.run_at t).1 < T := by
        simp [cancelledAt] at hc
        exact hc
      have hdue : a.run_at ≤ (maybe_wait_until (some T) a.run_at t).1 := by
        rcases (maybe_wait_until_spec (some T) a.run_at t).2.1 with h | h
        · exact h
        · exact absurd h hc
      have ha : a.run_at < T := lt_of_le_of_lt hdue hlt
      cases hr : (runWf a.workflow).2 with
      | some err =>
        rw [hr] at he
        simp at he
        subst he
        exact ha
      | none =>
        rw [hr] at he
        simp at he
        rcases he with rfl | he
        · exact ha
        · exact ih _ e he

/-- Without cancellation and without workflow failures the loop executes
every entry of its list, in order. -/
theorem sched_loop_complete {Wf : Type} (runWf : Wf → ℚ × Option AErr)
    (hok : ∀ w, (runWf w).2 = none) :
    ∀ (l : List (ScheduledWorkflow Wf)) (t : ℚ),
      (sched_loop runWf none t l).1 = l := by
  intro l
  induction l with
  | nil => intro t; rfl
  | cons a rest ih =>
    intro t
    rw [sched_loop_cons]
    rw [if_neg (by simp [cancelledAt])]
    rw [hok a.workflow]
    simp [ih]

/-- The sorted entry list is sorted by `run_at`, ascending. -/
theorem sort_by_run_at_sorted {Wf : Type} (l : List (ScheduledWorkflow Wf)) :
    List.Sorted (fun a b => a.run_at ≤ b.run_at) (sort_by_run_at l) := by
  unfold sort_by_run_at
  split
  · exact List.sorted_insertionSort _ l
  · rename_i h
    rcases l with _ | ⟨a, _ | ⟨b, rest⟩⟩
    · exact List.sorted_nil
    · exact List.sorted_singleton a
    · simp at h

/-- Inserting an element whose key differs from `q` does not change the
key-`q` sublist. -/
theorem orderedInsert_filter_of_ne {Wf : Type} (a : ScheduledWorkflow Wf) (q : ℚ)
    (ha : ¬ a.run_at = q) :
    ∀ l : List (ScheduledWorkflow Wf),
      ((l.orderedInsert (fun x y => x.run_at ≤ y.run_at) a).filter
          (fun e => decide (e.run_at = q)))
        = l.filter (fun e => decide (e.run_at = q)) := by
  intro l
  induction l with
  | nil => simp [List.orderedInsert, ha]
  | cons b rest ih =>
    rw [List.orderedInsert]
    split
    · simp [List.filter_cons, ha]
    · simp [List.filter_cons, ih]

/-- Inserting an element with key `q` into a list puts it in front of the
key-`q` sublist: `orderedInsert` passes only over strictly smaller keys. -/
theorem orderedInsert_filter_of_eq {Wf : Type} (a : ScheduledWorkflow Wf) (q : ℚ)
    (ha : a.run_at = q) :
    ∀ l : List (ScheduledWorkflow Wf),
      ((l.orderedInsert (fun x y => x.run_at ≤ y.run_at) a).filter
          (fun e => decide (e.run_at = q)))
        = a :: l.filter (fun e => decide (e.run_at = q)) := by
  intro l
  induction l with
  | nil => simp [List.orderedInsert, ha]
  | cons b rest ih =>
    rw [List.orderedInsert]
    split
    · simp [List.filter_cons, ha]
    · rename_i hgt
      have hb : ¬ b.run_at = q := fun hbq => hgt (le_of_eq (ha.trans hbq.symm))
      simp [List.filter_cons, hb, ih]

/-- Insertion sort by `run_at` is stable: for every key `q`, the sublist of
entries with `run_at = q` is unchanged. -/
theorem insertionSort_filter_run_at {Wf : Type} (q : ℚ) :
    ∀ l : List (ScheduledWorkflow Wf),
      ((l.insertionSort (fun x y => x.run_at ≤ y.run_at)).filter
          (fun e => decide (e.run_at = q)))
        = l.filter (fun e => decide (e.run_at = q)) := by
  intro l
  induction l with
  | nil => rfl
  | cons a rest ih =>
    rw [List.insertionSort]
    by_cases ha : a.run_at = q
    · rw [orderedInsert_filter_of_eq a q ha, ih]
      simp [List.filter_cons, ha]
    · rw [orderedInsert_filter_of_ne a q ha, ih]
      simp [List.filter_cons, ha]

/-- Stability of the scheduler's sort. -/
theorem sort_by_run_at_filter {Wf : Type} (q : ℚ) (l : List (ScheduledWorkflow Wf)) :
    (sort_by_run_at l).filter (fun e => decide (e.run_at = q))
      = l.filter (fun e => decide (e.run_at = q)) := by
  unfold sort_by_run_at
  split
  · exact insertionSort_filter_run_at q l
  · rfl

/-- The scheduler's sort permutes the entry list. -/
theorem sort_by_run_at_perm {Wf : Type} (l : List (ScheduledWorkflow Wf)) :
    (sort_by_run_at l).Perm l := by
  unfold sort_by_run_at
  split
  · exact List.perm_insertionSort _ l
  · exact List.Perm.refl l

/-- Unfolding of `Scheduler.run` on a non-empty entry list with the backend
available. -/
theorem sched_run_nonempty {Wf : Type} (kb : Bool) (safety : SafetySettings)
    (runWf : Wf → ℚ × Option AErr) (cancel : Option ℚ) (t0 : ℚ)
    (entries : List (ScheduledWorkflow Wf)) (h : entries ≠ []) :
    sched_run kb true safety runWf cancel t0 entries =
      { executed := (sched_loop runWf cancel t0 (sort_by_run_at entries)).1,
        final_time := (sched_loop runWf cancel t0 (sort_by_run_at entries)).2.1,
        listener := some (listener_exit kb
          (listener_enter kb (HotkeyListener.init safety.hotkey))),
        backend_constructed := true,
        error := (sched_loop runWf cancel t0 (sort_by_run_at entries)).2.2 } := by
  unfold sched_run
  rw [if_neg (by simpa [List.isEmpty_iff_eq_nil] using h)]
  rfl

/-- Unfolding of `Scheduler.run` on a non-empty entry list with the backend
missing: `AutomationAPI()` raises inside the guard scope. -/
theorem sched_run_no_backend {Wf : Type} (kb : Bool) (safety : SafetySettings)
    (runWf : Wf → ℚ × Option AErr) (cancel : Option ℚ) (t0 : ℚ)
    (entries : List (ScheduledWorkflow Wf)) (h : entries ≠ []) :
    sched_run kb false safety runWf cancel t0 entries =
      { executed := [], final_time := t0,
        listener := some (listener_exit kb
          (listener_enter kb (HotkeyListener.init safety.hotkey))),
        backend_constructed := false, error := some .backendMissing } := by
  unfold sched_run
  rw [if_neg (by simpa [List.isEmpty_iff_eq_nil] using h)]
  rfl

/-- Guard teardown always sets the cancellation event. -/
theorem listener_exit_event_set (kb : Bool) (l : HotkeyListener) :
    (listener_exit kb l).event_set = true := rfl

/-- The errors `ensure_focus` can raise: backend missing, no active window,
or a focus mismatch. -/
theorem ensure_focus_error_cases (s : SafetySettings) (pg : Bool)
    (w : Option (Option String)) (e : AErr)
    (h : ensure_focus s pg w = .error e) :
    e = .backendMissing ∨ e = .noActiveWindow ∨ e = .focusMismatch := by
  unfold ensure_focus at h
  rcases hrw : s.require_window_title with _ | req <;> rw [hrw] at h
  · simp at h
  · dsimp only at h
    by_cases h1 : req = ""
    · rw [if_pos h1] at h; simp at h
    · rw [if_neg h1] at h
      by_cases h2 : pg = false
      · rw [if_pos h2] at h
        simp at h
        exact Or.inl h.symm
      · rw [if_neg h2] at h
        rcases haw : w with _ | title <;> rw [haw] at h
        · simp at h
          exact Or.inr (Or.inl h.symm)
        · dsimp only at h
          by_cases h3 :
              charsContain (lowerChars (title.getD "").data) (lowerChars req.data) = true
          · rw [if_pos h3] at h; simp at h
          · rw [if_neg h3] at h
            simp at h
            exact Or.inr (Or.inr h.symm)

/-- Errors raised by the task factories are never the unknown-type error:
that error arises only from a failed registry lookup. -/
theorem factory_no_unknown (f : TaskSpec → Except AErr Task)
    (hf : f = mkMoveTask ∨ f = mkClickTask ∨ f = mkTypeTask ∨ f = mkHotkeyTask
      ∨ f = mkWaitTask)
    (spec : TaskSpec) (e : AErr) (h : f spec = .error e) :
    ¬ e = .unknownTaskType := by
  intro he
  subst he
  rcases hf with rfl | rfl | rfl | rfl | rfl <;>
    · simp only [mkMoveTask, mkClickTask, mkTypeTask, mkHotkeyTask, mkWaitTask] at h
      repeat' split at h
      all_goals simp at h

/-- The function `build_task_typed` applied to a registered name whose factory never
raises the unknown-type error does not raise it either. -/
theorem build_task_typed_registered_no_unknown (name : String)
    (f : TaskSpec → Except AErr Task)
    (hl : TASK_REGISTRY.lookup name = some f)
    (hf : ∀ (spec : TaskSpec) (e : AErr), f spec = .error e → ¬ e = .unknownTaskType)
    (spec1 : TaskSpec) :
    build_task_typed name spec1 ≠ .error .unknownTaskType := by
  intro hcontra
  unfold build_task_typed at hcontra
  rw [hl] at hcontra
  dsimp only at hcontra
  cases hm : f spec1 with
  | error e =>
    rw [hm] at hcontra
    simp at hcontra
    exact hf spec1 e hm hcontra
  | ok t2 =>
    rw [hm] at hcontra
    dsimp only at hcontra
    cases hd : spec1.delay_before with
    | none => rw [hd] at hcontra; simp at hcontra
    | some d =>
      rw [hd] at hcontra
      repeat' split at hcontra
      all_goals simp at hcontra

/-- The registry dispatch of `build_task` does not depend on the `type`
entry left inside the spec dictionary: the factories and the delay epilogue
read every key except `type`. -/
theorem build_task_typed_type_irrel (ty : String) (spec : TaskSpec) (o : Option String) :
    build_task_typed ty { spec with type := o } = build_task_typed ty spec := by
  unfold build_task_typed
  cases hl : TASK_REGISTRY.lookup ty with
  | none => rfl
  | some f =>
    simp only [TASK_REGISTRY, List.lookup] at hl
    repeat' split at hl
    all_goals cases hl
    all_goals rfl

/-- C1 counterexample: the claim says the absolute `run_at` timestamp takes
precedence when a schedule block carries both keys, but
`load_workflows_from_config` tests `delay_seconds` first: at `now = 0` with
`delay_seconds = 5` and `run_at = 100` the computed time is `0 + 5`, not
`100`. -/
theorem claim_C1_counterexample :
    ¬ compute_run_at 0 { delay_seconds := some 5, run_at := some 100 } = some 100 := by
  simp only [compute_run_at, Option.some.injEq]
  norm_num

/-- C1 (amended): when a schedule block contains both `delay_seconds` and
`run_at`, the loader computes the entry's time from the relative delay,
`now + delay_seconds`; the absolute timestamp is ignored (the relative form
takes precedence). -/
theorem claim_C1 (now d t : ℚ) :
    compute_run_at now { delay_seconds := some d, run_at := some t }
      = some (now + d) := rfl

/-- C2: with the cancellation event set at time `T`: every slice an
inter-workflow wait passes to `listener.wait` is at most one second, and the
flag is re-checked after every slice, so when `T` falls after the start of a
wait the observed return time is at most `T + 1`; every workflow the run
begins was due strictly before `T` (hence no entry with `run_at > T` begins
execution); and the executed entries are an initial segment of the sorted
entry list — the remaining entries are skipped, not run. -/
theorem claim_C2 {Wf : Type} (runWf : Wf → ℚ × Option AErr)
    (keyboard_present pyautogui_present : Bool) (safety : SafetySettings)
    (T t0 : ℚ) (entries : List (ScheduledWorkflow Wf)) :
    (∀ run_at now : ℚ, ∀ s ∈ (maybe_wait_until (some T) run_at now).2, 0 < s ∧ s ≤ 1) ∧
    (∀ run_at now : ℚ, now < T → T ≤ (maybe_wait_until (some T) run_at now).1 →
      (maybe_wait_until (some T) run_at now).1 ≤ T + 1) ∧
    (∀ e ∈ (sched_run keyboard_present pyautogui_present safety runWf (some T) t0
        entries).executed, e.run_at < T) ∧
    (∃ k, (sched_run keyboard_present pyautogui_present safety runWf (some T) t0
        entries).executed = (sort_by_run_at entries).take k) := by
  refine ⟨fun r n => (maybe_wait_until_spec (some T) r n).2.2,
    fun r n h1 h2 => maybe_wait_until_latency T r n h1 h2, ?_, ?_⟩
  · intro e he
    by_cases hne : entries = []
    · subst hne
      simp [sched_run] at he
    · cases pyautogui_present with
      | false =>
        rw [sched_run_no_backend keyboard_present safety runWf (some T) t0 entries hne] at he
        simp at he
      | true =>
        rw [sched_run_nonempty keyboard_present safety runWf (some T) t0 entries hne] at he
        exact sched_loop_executed_lt runWf T _ t0 e he
  · by_cases hne : entries = []
    · subst hne
      exact ⟨0, by simp [sched_run, sort_by_run_at]⟩
    · cases pyautogui_present with
      | false =>
        exact ⟨0, by
          rw [sched_run_no_backend keyboard_present safety runWf (some T) t0 entries hne]
          simp⟩
      | true =>
        rw [sched_run_nonempty keyboard_present safety runWf (some T) t0 entries hne]
        exact sched_loop_take runWf (some T) _ t0

/-- C2 witness: a concrete run starting at time `0` with entries due at `1`
and `5` and cancellation at `T = 2`; the wait before the entry due at `5`
observes the cancellation at time `2 ≤ 2 + 1`, and the only executed entry
was due at `1 < 2`. -/
theorem claim_C2_witness :
    ((0:ℚ) < 2 ∧ (2:ℚ) ≤ (maybe_wait_until (some 2) 5 0).1 ∧
      (maybe_wait_until (some 2) 5 0).1 ≤ 2 + 1) ∧
    (∀ e ∈ (sched_run true true {} (fun _ : Unit => ((0:ℚ), (none : Option AErr)))
        (some 2) 0 [⟨(), 1⟩, ⟨(), 5⟩]).executed, e.run_at < 2) := by
  have h0 : (0:ℚ) < 2 := by norm_num
  have hval : (maybe_wait_until (some 2) 5 0).1 = 2 := by
    norm_num [maybe_wait_until, maybe_wait_until_fuel, event_wait, cancelledAt,
      Option.getD_some]
  have hobs : (2:ℚ) ≤ (maybe_wait_until (some 2) 5 0).1 := by rw [hval]
  exact ⟨⟨h0, hobs,
      (claim_C2 (fun _ : Unit => ((0:ℚ), (none : Option AErr))) true true {} 2 0
        [⟨(), 1⟩, ⟨(), 5⟩]).2.1 5 0 h0 hobs⟩,
    (claim_C2 (fun _ : Unit => ((0:ℚ), (none : Option AErr))) true true {} 2 0
        [⟨(), 1⟩, ⟨(), 5⟩]).2.2.1⟩

/-- C3: `Scheduler.run()` executes entries in the order of a stable
ascending sort by `run_at`: the sorted list is sorted ascending, is a
permutation of the entry list, preserves the relative order of entries with
equal `run_at` (filter stability), the executed entries are an initial
segment of it, and a run with no cancellation and no failures executes
exactly the sorted list. -/
theorem claim_C3 {Wf : Type} (runWf : Wf → ℚ × Option AErr)
    (keyboard_present : Bool) (safety : SafetySettings)
    (cancel : Option ℚ) (t0 : ℚ) (entries : List (ScheduledWorkflow Wf)) :
    List.Sorted (fun a b => a.run_at ≤ b.run_at) (sort_by_run_at entries) ∧
    (sort_by_run_at entries).Perm entries ∧
    (∀ q : ℚ, (sort_by_run_at entries).filter (fun e => decide (e.run_at = q))
      = entries.filter (fun e => decide (e.run_at = q))) ∧
    (∃ k, (sched_run keyboard_present true safety runWf cancel t0 entries).executed
      = (sort_by_run_at entries).take k) ∧
    (cancel = none → (∀ w, (runWf w).2 = none) →
      (sched_run keyboard_present true safety runWf cancel t0 entries).executed
        = sort_by_run_at entries) := by
  refine ⟨sort_by_run_at_sorted entries, sort_by_run_at_perm entries,
    fun q => sort_by_run_at_filter q entries, ?_, ?_⟩
  · by_cases hne : entries = []
    · subst hne
      exact ⟨0, by simp [sched_run, sort_by_run_at]⟩
    · rw [sched_run_nonempty keyboard_present safety runWf cancel t0 entries hne]
      exact sched_loop_take runWf cancel _ t0
  · intro hcancel hok
    subst hcancel
    by_cases hne : entries = []
    · subst hne
      simp [sched_run, sort_by_run_at]
    · rw [sched_run_nonempty keyboard_present safety runWf none t0 entries hne]
      exact sched_loop_complete runWf hok _ t0

/-- C3 witness: a concrete uncancelled, failure-free run executes exactly
the sorted entry list. -/
theorem claim_C3_witness :
    (sched_run true true {} (fun _ : Unit => ((0:ℚ), (none : Option AErr)))
        none 0 [⟨(), 5⟩, ⟨(), 1⟩]).executed
      = sort_by_run_at [⟨(), 5⟩, ⟨(), 1⟩] :=
  (claim_C3 (fun _ : Unit => ((0:ℚ), (none : Option AErr))) true {} none 0
    [⟨(), 5⟩, ⟨(), 1⟩]).2.2.2.2 rfl (fun _ => rfl)

/-- C4: `HotkeyListener.__exit__` unconditionally sets the cancellation
event and, when a hotkey had been registered and the backend is present,
unregisters it; no listener operation ever clears a set event; and on every
run over a non-empty entry list — normal, early break, or error (including a
missing backend) — the guard scope is exited with the event set. -/
theorem claim_C4 :
    (∀ (kb : Bool) (l : HotkeyListener), (listener_exit kb l).event_set = true) ∧
    (∀ (kb : Bool) (l : HotkeyListener),
      l.registered_hotkey.isSome = true → kb = true →
      (listener_exit kb l).os_registered = false) ∧
    (∀ (kb : Bool) (l : HotkeyListener), l.event_set = true →
      (listener_enter kb l).event_set = true ∧ (listener_exit kb l).event_set = true ∧
        (hotkey_callback l).event_set = true) ∧
    (∀ (Wf : Type) (runWf : Wf → ℚ × Option AErr) (kb pg : Bool)
      (safety : SafetySettings) (cancel : Option ℚ) (t0 : ℚ)
      (entries : List (ScheduledWorkflow Wf)), entries ≠ [] →
      ∃ lf, (sched_run kb pg safety runWf cancel t0 entries).listener = some lf ∧
        lf.event_set = true) := by
  refine ⟨listener_exit_event_set, ?_, ?_, ?_⟩
  · intro kb l h1 h2
    simp [listener_exit, h1, h2]
  · intro kb l h
    refine ⟨?_, listener_exit_event_set kb l, rfl⟩
    cases hl : l.hotkey with
    | none => simp [listener_enter, hl, h]
    | some hk =>
      simp only [listener_enter, hl]
      split
      · exact h
      · simp [h]
  · intro Wf runWf kb pg safety cancel t0 entries hne
    cases pg with
    | false =>
      rw [sched_run_no_backend kb safety runWf cancel t0 entries hne]
      exact ⟨_, rfl, rfl⟩
    | true =>
      rw [sched_run_nonempty kb safety runWf cancel t0 entries hne]
      exact ⟨_, rfl, rfl⟩

/-- C4 witness: tearing down a listener with a registered hotkey removes the
OS registration, and a concrete one-entry run ends with the event set. -/
theorem claim_C4_witness :
    (sample_listener.registered_hotkey.isSome = true ∧
      (listener_exit true sample_listener).os_registered = false) ∧
    (∃ lf, (sched_run true true {} (fun _ : Unit => ((0:ℚ), (none : Option AErr)))
        none 0 [⟨(), 0⟩]).listener = some lf ∧ lf.event_set = true) :=
  ⟨⟨rfl, claim_C4.2.1 true _ rfl rfl⟩,
    claim_C4.2.2.2 Unit _ true true {} none 0 [⟨(), 0⟩] (by simp)⟩

/-- C5: in a workflow whose tasks are `pre ++ bad :: post` where every task
of `pre` succeeds and `bad` raises `e`, `Workflow.run` executes exactly the
tasks of `pre` (each after its pre-delay), issues `bad`'s pre-delay, and
propagates `e`; the trace does not depend on `post`, so the tasks after the
failing one never execute. -/
theorem claim_C5 (ctx : TaskContext) (pre post : List Task) (bad : Task) (e : AErr)
    (hpre : ∀ t ∈ pre, ∃ effs, run_task ctx t.action = .ok effs)
    (hbad : run_task ctx bad.action = .error e) :
    run_tasks ctx (pre ++ bad :: post) =
      ((pre.map (task_trace ctx)).join ++ pre_delay_trace bad, some e) := by
  induction pre with
  | nil =>
    show run_tasks ctx (bad :: post) = _
    simp only [run_tasks]
    rw [hbad]
    simp
  | cons t ts ih =>
    obtain ⟨effs, heff⟩ := hpre t (List.mem_cons_self t ts)
    have hts : ∀ u ∈ ts, ∃ effs2, run_task ctx u.action = .ok effs2 :=
      fun u hu => hpre u (List.mem_cons_of_mem t hu)
    have ih2 := ih hts
    show run_tasks ctx (t :: (ts ++ bad :: post)) = _
    simp only [run_tasks]
    rw [heff, ih2]
    simp [task_trace, ok_effs, heff, List.append_assoc]

/-- C5 witness: in `sample_ctx` a wait task succeeds, a click task fails its
focus check, and the two-task-plus-tail workflow runs the wait, propagates
the focus error and never reaches the trailing wait. -/
theorem claim_C5_witness :
    run_task sample_ctx (TaskAction.click "left") = .error .focusMismatch ∧
    run_tasks sample_ctx
        ([{ action := .wait 1 }] ++ ({ action := .click "left" } : Task) :: [{ action := .wait 2 }])
      = (([({ action := .wait 1 } : Task)].map (task_trace sample_ctx)).join
          ++ pre_delay_trace { action := .click "left" }, some .focusMismatch) :=
  ⟨rfl, claim_C5 sample_ctx [{ action := .wait 1 }] [{ action := .wait 2 }]
      { action := .click "left" } .focusMismatch
      (fun t ht => by
        rw [List.mem_singleton] at ht
        subst ht
        exact ⟨[api_sleep 1], rfl⟩)
      rfl⟩

/-- C6: the focus check passes without querying the window when no focus
title is required (the result is `ok` and independent of the window state);
with a non-empty required title it fails with the no-active-window error
when no window is active, fails with the mismatch error when the active
window's title does not contain the required title case-insensitively, and
passes otherwise; and the `Move`, `Click`, `Type` and `Hotkey` variants all
run exactly this check before their action. -/
theorem claim_C6 (s : SafetySettings) (req : String) (hreq : ¬ req = "") :
    (s.require_window_title = none →
      ∀ (pg : Bool) (w : Option (Option String)), ensure_focus s pg w = .ok ()) ∧
    (ensure_focus { s with require_window_title := some req } true none
      = .error .noActiveWindow) ∧
    (∀ title : Option String,
      ¬ charsContain (lowerChars (title.getD "").data) (lowerChars req.data) = true →
      ensure_focus { s with require_window_title := some req } true (some title)
        = .error .focusMismatch) ∧
    (∀ title : Option String,
      charsContain (lowerChars (title.getD "").data) (lowerChars req.data) = true →
      ensure_focus { s with require_window_title := some req } true (some title)
        = .ok ()) ∧
    (∀ ctx : TaskContext,
      (∀ x y d, run_task ctx (.move x y d)
        = (focus_check ctx).map (fun _ => [.moveTo x y d])) ∧
      (∀ b, run_task ctx (.click b) = (focus_check ctx).map (fun _ => [.click b])) ∧
      (∀ txt i, run_task ctx (.typeText txt i)
        = (focus_check ctx).map (fun _ => [.write txt i])) ∧
      (∀ ks, run_task ctx (.hotkey ks)
        = (focus_check ctx).map (fun _ => [.hotkey ks]))) := by
  refine ⟨?_, ?_, ?_, ?_,
    fun ctx => ⟨fun x y d => rfl, fun b => rfl, fun txt i => rfl, fun ks => rfl⟩⟩
  · intro h pg w
    simp [ensure_focus, h]
  · simp [ensure_focus, hreq]
  · intro title ht
    simp [ensure_focus, hreq, ht]
  · intro title ht
    simp [ensure_focus, hreq, ht]

/-- C6 witness: with required title "editor", no active window fails, an
active "Notepad" window fails the case-insensitive substring test, and an
active "My Editor" window passes it. -/
theorem claim_C6_witness :
    (¬ ("editor" : String) = "") ∧
    ensure_focus { require_window_title := some "editor" } true none
      = .error .noActiveWindow ∧
    ensure_focus { require_window_title := some "editor" } true (some (some "Notepad"))
      = .error .focusMismatch ∧
    ensure_focus { require_window_title := some "editor" } true (some (some "My Editor"))
      = .ok () := by
  have hreq : ¬ ("editor" : String) = "" := by decide
  refine ⟨hreq, ?_, ?_, ?_⟩
  · exact (claim_C6 {} "editor" hreq).2.1
  · exact (claim_C6 {} "editor" hreq).2.2.1 (some "Notepad") (by decide)
  · exact (claim_C6 {} "editor" hreq).2.2.2.1 (some "My Editor") (by decide)

/-- C7: constructing a `HotkeyTask` with an empty key sequence raises the
`ValueError` at construction; construction with at least one key succeeds
(so a constructed task always holds a non-empty key list); and no task
`run` method ever raises that error — it is construction-time only. -/
theorem claim_C7 :
    (HotkeyTask_init [] = .error .valueError) ∧
    (∀ (k : String) (ks : List String),
      HotkeyTask_init (k :: ks) = .ok { action := .hotkey (k :: ks) }) ∧
    (∀ (keys : List String) (t : Task), HotkeyTask_init keys = .ok t → keys ≠ []) ∧
    (∀ (ctx : TaskContext) (a : TaskAction), run_task ctx a ≠ .error .valueError) := by
  refine ⟨rfl, ?_, ?_, ?_⟩
  · intro k ks
    simp [HotkeyTask_init]
  · intro keys t h heq
    subst heq
    simp [HotkeyTask_init] at h
  · intro ctx a hcontra
    have hfc : ∀ e2, focus_check ctx = .error e2 → ¬ e2 = .valueError := by
      intro e2 hf hv
      rcases ensure_focus_error_cases ctx.safety ctx.pyautogui_present
          ctx.active_window e2 hf with h | h | h <;>
        rw [hv] at h <;> exact AErr.noConfusion h
    have hmap : ∀ f : Unit → List Eff,
        (focus_check ctx).map f = Except.error AErr.valueError → False := by
      intro f hc
      cases hf : focus_check ctx with
      | ok u => rw [hf] at hc; simp [Except.map] at hc
      | error e2 =>
        rw [hf] at hc
        simp [Except.map] at hc
        exact hfc e2 hf hc
    cases a with
    | move x y duration => exact hmap _ hcontra
    | click b => exact hmap _ hcontra
    | typeText txt i => exact hmap _ hcontra
    | hotkey ks => exact hmap _ hcontra
    | wait s2 => simp [run_task] at hcontra

/-- C7 witness: a two-key construction succeeds and its key list is
non-empty. -/
theorem claim_C7_witness :
    HotkeyTask_init ["ctrl", "c"] = .ok { action := .hotkey ["ctrl", "c"] } ∧
    (["ctrl", "c"] : List String) ≠ [] :=
  ⟨claim_C7.2.1 "ctrl" ["c"],
    claim_C7.2.2.1 ["ctrl", "c"] { action := .hotkey ["ctrl", "c"] }
      (claim_C7.2.1 "ctrl" ["c"])⟩

/-- C8: `Scheduler.run()` on an empty entry list is a no-op: no workflow
(hence no task) executes, no error is raised, the safety guard is never
installed and the automation backend is never constructed. -/
theorem claim_C8 {Wf : Type} (keyboard_present pyautogui_present : Bool)
    (safety : SafetySettings) (runWf : Wf → ℚ × Option AErr)
    (cancel : Option ℚ) (t0 : ℚ) :
    sched_run keyboard_present pyautogui_present safety runWf cancel t0 [] =
      { executed := [], final_time := t0, listener := none,
        backend_constructed := false, error := none } := rfl

/-- C9: `AutomationAPI.sleep` hands `time.sleep` the clamped duration
`max seconds 0`, which is non-negative and equal to `0` for negative input;
a `Wait` task always succeeds and issues exactly that clamped sleep; and a
negative `delay_before` likewise reaches `time.sleep` as `0`. -/
theorem claim_C9 (seconds : ℚ) :
    api_sleep seconds = Eff.sleep (max seconds 0) ∧
    0 ≤ max seconds 0 ∧
    (seconds < 0 → api_sleep seconds = Eff.sleep 0) ∧
    (∀ ctx : TaskContext, run_task ctx (.wait seconds) = .ok [api_sleep seconds]) ∧
    (∀ t : Task, t.delay_before < 0 → pre_delay_trace t = [Eff.sleep 0]) := by
  refine ⟨rfl, le_max_right _ _, ?_, fun ctx => rfl, ?_⟩
  · intro h
    simp [api_sleep, max_eq_right h.le]
  · intro t h
    have h1 : t.delay_before ≠ 0 := ne_of_lt h
    simp [pre_delay_trace, h1, api_sleep, max_eq_right h.le]

/-- C9 witness: sleeping for `-1` seconds and a pre-delay of `-2` seconds
both reach `time.sleep` as `0`. -/
theorem claim_C9_witness :
    ((-1 : ℚ) < 0 ∧ api_sleep (-1) = Eff.sleep 0) ∧
    (({ action := .wait 0, delay_before := -2 } : Task).delay_before < 0 ∧
      pre_delay_trace { action := .wait 0, delay_before := -2 } = [Eff.sleep 0]) :=
  ⟨⟨by norm_num, (claim_C9 (-1)).2.2.1 (by norm_num)⟩,
    ⟨by norm_num,
      (claim_C9 0).2.2.2.2 { action := .wait 0, delay_before := -2 } (by norm_num)⟩⟩

/-- C10: task-type dispatch in `build_task` is case-insensitive: two `type`
strings with the same lower-casing build the same task; the upper-case
"CLICK" builds the default click task; and a `type` whose lower-casing is
any registered name never raises the unknown-type error. -/
theorem claim_C10 (s t : String) (spec : TaskSpec)
    (h : str_toLower s = str_toLower t) :
    (build_task { spec with type := some s } = build_task { spec with type := some t }) ∧
    (build_task { type := some "CLICK" } = .ok { action := .click "left" }) ∧
    (∀ (u : String) (spec1 : TaskSpec),
      (str_toLower u = "move" ∨ str_toLower u = "click" ∨ str_toLower u = "type"
        ∨ str_toLower u = "hotkey" ∨ str_toLower u = "wait") →
      build_task { spec1 with type := some u } ≠ .error .unknownTaskType) := by
  refine ⟨?_, rfl, ?_⟩
  · show build_task_typed (str_toLower s) { spec with type := some s }
        = build_task_typed (str_toLower t) { spec with type := some t }
    rw [build_task_typed_type_irrel (str_toLower s) spec (some s),
      build_task_typed_type_irrel (str_toLower t) spec (some t), h]
  · intro u spec1 hu
    show build_task_typed (str_toLower u) { spec1 with type := some u } ≠ _
    rw [build_task_typed_type_irrel]
    rcases hu with hu | hu | hu | hu | hu <;> rw [hu]
    · exact build_task_typed_registered_no_unknown "move" mkMoveTask rfl
        (fun sp e he => factory_no_unknown mkMoveTask (Or.inl rfl) sp e he) spec1
    · exact build_task_typed_registered_no_unknown "click" mkClickTask rfl
        (fun sp e he => factory_no_unknown mkClickTask (Or.inr (Or.inl rfl)) sp e he) spec1
    · exact build_task_typed_registered_no_unknown "type" mkTypeTask rfl
        (fun sp e he => factory_no_unknown mkTypeTask
          (Or.inr (Or.inr (Or.inl rfl))) sp e he) spec1
    · exact build_task_typed_registered_no_unknown "hotkey" mkHotkeyTask rfl
        (fun sp e he => factory_no_unknown mkHotkeyTask
          (Or.inr (Or.inr (Or.inr (Or.inl rfl)))) sp e he) spec1
    · exact build_task_typed_registered_no_unknown "wait" mkWaitTask rfl
        (fun sp e he => factory_no_unknown mkWaitTask
          (Or.inr (Or.inr (Or.inr (Or.inr rfl)))) sp e he) spec1

/-- C10 witness: "Click" and "click" build the same task, and "CLICK" does
not hit the unknown-type error. -/
theorem claim_C10_witness :
    str_toLower "Click" = str_toLower "click" ∧
    build_task { type := some "Click" } = build_task { type := some "click" } ∧
    str_toLower "CLICK" = "click" ∧
    build_task { type := some "CLICK" } ≠ .error .unknownTaskType := by
  have h : str_toLower "Click" = str_toLower "click" := by decide
  have h2 : str_toLower "CLICK" = "click" := by decide
  exact ⟨h, (claim_C10 "Click" "click" {} h).1, h2,
    (claim_C10 "Click" "click" {} h).2.2 "CLICK" {} (Or.inr (Or.inl h2))⟩

end AutoFlow
